import Mathlib

/-!
Shallow embedding of the Dagger CI/CD pipeline script of
`k8s-dagger-pipeline-sandbox` (the EKS-capable `dagger/src/index.ts`).

The script is orchestration glue: it derives registry / image / chart
references from environment variables, and runs a fixed sequence of
external-process invocations (`execSync`) and container steps, aborting on
the first failure (a thrown error propagates and kills the process).

Modelling choices:
* Effectful execution is modelled as a writer + exception monad
  `PResult α`: a run produces the ordered list of externally visible
  events (process invocations and file writes) together with either a
  value or the first error thrown.
* The outside world (filesystem contents, directory listings, and the
  exit status of every external command) is an explicit `World` record of
  oracles; `execSync cmd` emits the event and consults `w.execOk cmd`.
* `resolve`-style absolute paths are modelled as repo-root-relative
  paths, so `resolve(environmentsDir, f)` becomes `"environments/" ++ f`.
* `try { execSync … } catch { }` (the swallowed namespace-creation and
  ingress-inspection steps of `deploy`) emits its event and always
  succeeds, independently of the oracle.
* The JavaScript `content.replace(/\$\{ECR_REPO_URI\}/g, uri)` is the
  left-to-right, non-overlapping, single-pass global replacement
  `substAux` on character lists.
-/

namespace Pipeline

/-- Externally visible events of a run: an `execSync` process invocation,
a container (Dagger) execution step, or a file written with
`writeFileSync`. -/
inductive Ev where
  | exec (cmd : String)
  | dagger (args : List String)
  | write (path : String) (content : String)
deriving DecidableEq, Repr

/-- Errors a run can throw: the configuration error thrown by `deploy`
when the values file is absent, a nonzero exit of an `execSync` command,
or a failing container step. -/
inductive PErr where
  | configError (msg : String)
  | toolFailure (cmd : String)
  | daggerFailure (args : List String)
deriving DecidableEq, Repr

deriving instance DecidableEq for Except

/-- Result of running a (possibly failing) effectful computation: the
ordered trace of events it emitted, and either its value or the first
error thrown. -/
structure PResult (α : Type) where
  trace : List Ev
  result : Except PErr α

/-- Return without effects. -/
def PResult.pure (a : α) : PResult α := ⟨[], Except.ok a⟩

/-- Sequencing: on error the continuation never runs (a thrown error
propagates), on success the traces concatenate in order. -/
def PResult.bind (x : PResult α) (f : α → PResult β) : PResult β :=
  match x.result with
  | Except.error e => ⟨x.trace, Except.error e⟩
  | Except.ok a => ⟨x.trace ++ (f a).trace, (f a).result⟩

/-- The outside world: filesystem oracles and the exit status of each
external command / container step, plus the temp directory and clock used
for the substituted-values temp file name. -/
structure World where
  fileExists : String → Bool
  fileContent : String → String
  dirList : String → List String
  execOk : String → Bool
  daggerOk : List String → Bool
  tmpdir : String
  now : Nat

/-- `execSync cmd`: the command is invoked (event emitted) and the run
fails with a tool failure iff the world reports a nonzero exit. -/
def execS (w : World) (cmd : String) : PResult Unit :=
  ⟨[Ev.exec cmd], if w.execOk cmd then Except.ok () else Except.error (PErr.toolFailure cmd)⟩

/-- `try { execSync cmd } catch { }`: the command is invoked but any
failure is swallowed. -/
def execSwallowed (_w : World) (cmd : String) : PResult Unit :=
  ⟨[Ev.exec cmd], Except.ok ()⟩

/-- A container execution step (`withExec` forced by `stdout()`). -/
def daggerStep (w : World) (args : List String) : PResult Unit :=
  ⟨[Ev.dagger args], if w.daggerOk args then Except.ok () else Except.error (PErr.daggerFailure args)⟩

/-- The ambient configuration read once from environment variables
(values after the `||`-defaults of the script). -/
structure Config where
  deploymentTarget : String
  awsRegion : String
  awsAccountId : String
  ecrRepoUri : String
  imageTag : String
  deployEnv : String

/-- `REGISTRY`: ECR host for `eks`, the fixed local registry otherwise. -/
def REGISTRY (c : Config) : String :=
  if c.deploymentTarget == "eks" then
    c.awsAccountId ++ ".dkr.ecr." ++ c.awsRegion ++ ".amazonaws.com"
  else
    "localhost:5001"

/-- `IMAGE_NAME`: the supplied repository URI for `eks`, the local
registry path otherwise. -/
def IMAGE_NAME (c : Config) : String :=
  if c.deploymentTarget == "eks" then c.ecrRepoUri else REGISTRY c ++ "/sample-app"

/-- `CHART_REPO`: OCI chart repository for the selected target. -/
def CHART_REPO (c : Config) : String :=
  if c.deploymentTarget == "eks" then "oci://" ++ REGISTRY c ++ "/charts"
  else "oci://localhost:5001/charts"

/-- `FULL_IMAGE = IMAGE_NAME:IMAGE_TAG`. -/
def FULL_IMAGE (c : Config) : String := IMAGE_NAME c ++ ":" ++ c.imageTag

/-- Repo root (paths are modelled repo-root-relative). -/
def projectRoot : String := "."

/-- `helm/sample-app`, the chart directory. -/
def helmChartDir : String := "helm/sample-app"

/-- `environments`, the values-overlay directory. -/
def environmentsDir : String := "environments"

/-- `getEnvironmentFile`: values-file path of an environment. -/
def getEnvironmentFile (c : Config) (env : String) : String :=
  if c.deploymentTarget == "eks" then environmentsDir ++ "/eks-" ++ env ++ ".yaml"
  else environmentsDir ++ "/" ++ env ++ ".yaml"

/-- The placeholder token `${ECR_REPO_URI}` as a character list. -/
def ecrToken : List Char := "${ECR_REPO_URI}".data

/-- `leadsWith p l` holds iff `p` matches `l` at its start (the regex
match test performed at each scan position). -/
def leadsWith : List Char → List Char → Bool
  | [], _ => true
  | _ :: _, [] => false
  | a :: as, b :: bs => a == b && leadsWith as bs

/-- JavaScript `f.endsWith(suffix)`: the reversed suffix matches the
start of the reversed string. (Structural model of `String.endsWith`,
whose auxiliaries the kernel cannot evaluate.) -/
def endsWithStr (s suffix : String) : Bool :=
  leadsWith suffix.data.reverse s.data.reverse

/-- Number of positions of `l` at which the token matches. -/
def countTok : List Char → Nat
  | [] => 0
  | c :: cs => (if leadsWith ecrToken (c :: cs) then 1 else 0) + countTok cs

/-- Left-to-right, non-overlapping global replacement of the token by
`uri` (the semantics of `content.replace(/\$\{ECR_REPO_URI\}/g, uri)`). -/
def substAux (uri : List Char) : List Char → List Char
  | [] => []
  | c :: cs =>
    if leadsWith ecrToken (c :: cs) then
      uri ++ substAux uri (List.drop ecrToken.length (c :: cs))
    else
      c :: substAux uri cs
termination_by l => l.length
decreasing_by
  all_goals
    have h15 : ecrToken.length = 15 := rfl
    simp [List.length_drop, h15, List.length_cons]
    try omega

/-- Split `l` at each (left-to-right, non-overlapping) token occurrence,
returning the token-free pieces between occurrences. -/
def splitTok : List Char → List (List Char)
  | [] => [[]]
  | c :: cs =>
    if leadsWith ecrToken (c :: cs) then
      [] :: splitTok (List.drop ecrToken.length (c :: cs))
    else
      match splitTok cs with
      | [] => [[c]]
      | p :: ps => (c :: p) :: ps
termination_by l => l.length
decreasing_by
  all_goals
    have h15 : ecrToken.length = 15 := rfl
    simp [List.length_drop, h15, List.length_cons]
    try omega

/-- Interleave `sep` between the pieces. -/
def interTok (sep : List Char) : List (List Char) → List Char
  | [] => []
  | [p] => p
  | p :: ps => p ++ sep ++ interTok sep ps

/-- The backquote character (code 96). -/
def backquoteChar : Char := Char.ofNat 96

/-- The single-quote character (code 39). -/
def singleQuoteChar : Char := Char.ofNat 39

/-- ECMAScript `GetSubstitution` for a replacement string against a
regular expression with no capture groups: `$$` inserts `$`, `$&` the
matched text, `$`+backquote the part of the subject before the match,
`$`+quote the part after the match; a trailing `$`, and `$` followed by
anything else (digits and `$<` included, the regex having no groups),
stay literal. -/
def expandRepl (before matched after : List Char) : List Char → List Char
  | [] => []
  | c :: rest =>
    if c = '$' then
      match rest with
      | [] => ['$']
      | d :: rest2 =>
        if d = '$' then '$' :: expandRepl before matched after rest2
        else if d = '&' then matched ++ expandRepl before matched after rest2
        else if d = backquoteChar then before ++ expandRepl before matched after rest2
        else if d = singleQuoteChar then after ++ expandRepl before matched after rest2
        else '$' :: d :: expandRepl before matched after rest2
    else c :: expandRepl before matched after rest

/-- JavaScript `content.replace(/\$\{ECR_REPO_URI\}/g, uri)`:
left-to-right, non-overlapping global replacement where each match is
replaced by `GetSubstitution`-expanding `uri` in the context of that
match (`before` accumulates the already-scanned original prefix). -/
def substJS (uri : List Char) : List Char → List Char → List Char
  | _, [] => []
  | before, c :: cs =>
    if leadsWith ecrToken (c :: cs) then
      expandRepl before ecrToken (List.drop ecrToken.length (c :: cs)) uri ++
        substJS uri (before ++ ecrToken) (List.drop ecrToken.length (c :: cs))
    else
      c :: substJS uri (before ++ [c]) cs
termination_by _ l => l.length
decreasing_by
  all_goals
    have h15 : ecrToken.length = 15 := rfl
    simp [List.length_drop, h15, List.length_cons]
    try omega

/-- `substituteEcrUri`: on the `eks` target with a nonempty repository
URI, read the values file, replace every `${ECR_REPO_URI}` token by the
URI, write the result to a fresh temp file and return its path; otherwise
return the original path untouched. -/
def substituteEcrUri (w : World) (cfg : Config) (valuesFile : String) : PResult String :=
  if cfg.deploymentTarget != "eks" || cfg.ecrRepoUri == "" then
    PResult.pure valuesFile
  else
    let content := w.fileContent valuesFile
    let substituted := String.mk (substJS cfg.ecrRepoUri.data [] content.data)
    let tmpFile := w.tmpdir ++ "/values-" ++ toString w.now ++ ".yaml"
    ⟨[Ev.write tmpFile substituted], Except.ok tmpFile⟩

/-- `lint`: `npm ci` then `npm run lint` in the node container. -/
def lint (w : World) : PResult Unit :=
  PResult.bind (daggerStep w ["npm", "ci"]) fun _ =>
    daggerStep w ["npm", "run", "lint"]

/-- `test`: `npm ci` then `npm test` in the node container. -/
def test (w : World) : PResult Unit :=
  PResult.bind (daggerStep w ["npm", "ci"]) fun _ =>
    daggerStep w ["npm", "test"]

/-- The unconditional `helm lint` invocation of `chartLint`. -/
def chartLintBaseCmd : String := "helm lint " ++ helmChartDir

/-- The per-overlay `helm lint -f` invocation of `chartLint`. -/
def chartLintFileCmd (f : String) : String :=
  "helm lint " ++ helmChartDir ++ " -f " ++ (environmentsDir ++ "/" ++ f)

/-- The `*.yaml` files of the environments directory. -/
def envYamlFiles (w : World) : List String :=
  (w.dirList environmentsDir).filter (fun f => endsWithStr f ".yaml")

/-- Lint the chart against each discovered overlay in order, aborting on
the first failure. -/
def lintEnvFiles (w : World) : List String → PResult Unit
  | [] => PResult.pure ()
  | f :: fs => PResult.bind (execS w (chartLintFileCmd f)) fun _ => lintEnvFiles w fs

/-- `chartLint`: `helm lint` on the bare chart, then once per `*.yaml`
file of the environments directory (the `try`/`catch` rethrows, so it is
semantically transparent). -/
def chartLint (w : World) : PResult Unit :=
  PResult.bind (execS w chartLintBaseCmd) fun _ => lintEnvFiles w (envYamlFiles w)

/-- `ecrLogin`: docker login against ECR. -/
def ecrLoginCmd (c : Config) : String :=
  "aws ecr get-login-password --region " ++ c.awsRegion ++
    " | docker login --username AWS --password-stdin " ++ REGISTRY c

/-- `helmLoginEcr`: helm registry login against ECR. -/
def helmLoginCmd (c : Config) : String :=
  "aws ecr get-login-password --region " ++ c.awsRegion ++
    " | helm registry login --username AWS --password-stdin " ++ REGISTRY c

/-- `docker build -t FULL_IMAGE <projectRoot>`. -/
def dockerBuildCmd (c : Config) : String :=
  "docker build -t " ++ FULL_IMAGE c ++ " " ++ projectRoot

/-- `docker push FULL_IMAGE`. -/
def dockerPushCmd (c : Config) : String := "docker push " ++ FULL_IMAGE c

/-- `helm package <chart> --destination /tmp`. -/
def helmPackageCmd : String := "helm package " ++ helmChartDir ++ " --destination /tmp"

/-- `helm push /tmp/sample-app-*.tgz CHART_REPO`. -/
def helmPushCmd (c : Config) : String := "helm push /tmp/sample-app-*.tgz " ++ CHART_REPO c

/-- `build`: for `eks` first docker and helm registry logins, then image
build, image push, chart package, chart push; returns `FULL_IMAGE`. -/
def build (w : World) (cfg : Config) : PResult String :=
  PResult.bind
    (if cfg.deploymentTarget == "eks" then
       PResult.bind (execS w (ecrLoginCmd cfg)) fun _ => execS w (helmLoginCmd cfg)
     else PResult.pure ()) fun _ =>
  PResult.bind (execS w (dockerBuildCmd cfg)) fun _ =>
  PResult.bind (execS w (dockerPushCmd cfg)) fun _ =>
  PResult.bind (execS w helmPackageCmd) fun _ =>
  PResult.bind (execS w (helmPushCmd cfg)) fun _ =>
  PResult.pure (FULL_IMAGE cfg)

/-- Helm release name: `sample-app-<env>` on `eks`, fixed `sample-app`
otherwise. -/
def releaseName (cfg : Config) (env : String) : String :=
  if cfg.deploymentTarget == "eks" then "sample-app-" ++ env else "sample-app"

/-- The `--namespace` arguments pushed only on the `eks` target. -/
def namespaceArgs (cfg : Config) (env : String) : List String :=
  if cfg.deploymentTarget == "eks" then ["--namespace " ++ env] else []

/-- The swallowed namespace-creation command of the `eks` branch. -/
def nsCreateCmd (env : String) : String :=
  "kubectl create namespace " ++ env ++ " --dry-run=client -o yaml | kubectl apply -f -"

/-- The `helm upgrade --install` command built by `deploy`. -/
def helmUpgradeCmd (cfg : Config) (env : String) (resolvedValuesFile : String) : String :=
  String.intercalate " "
    (["helm upgrade --install " ++ releaseName cfg env,
      CHART_REPO cfg ++ "/sample-app",
      "-f " ++ resolvedValuesFile,
      "--set image.tag=" ++ cfg.imageTag] ++
      namespaceArgs cfg env ++
      ["--wait", "--timeout 120s"])

/-- The swallowed ALB-DNS inspection command of the `eks` branch. -/
def ingressCmd (env : String) : String :=
  "kubectl get ingress -n " ++ env ++
    " -o jsonpath=\x27{.items[0].status.loadBalancer.ingress[0].hostname}\x27 2>/dev/null"

/-- `deploy`: resolve and check the values file, substitute the ECR
placeholder, on `eks` ensure the namespace (failure swallowed), run
`helm upgrade --install`, and on `eks` inspect the ALB DNS (failure
swallowed). The outer `try`/`catch` logs and rethrows, so it is
semantically transparent. -/
def deploy (w : World) (cfg : Config) (env : Option String) : PResult Unit :=
  let targetEnv := env.getD cfg.deployEnv
  let valuesFile := getEnvironmentFile cfg targetEnv
  if w.fileExists valuesFile then
    PResult.bind (substituteEcrUri w cfg valuesFile) fun resolvedValuesFile =>
    PResult.bind
      (if cfg.deploymentTarget == "eks" then execSwallowed w (nsCreateCmd targetEnv)
       else PResult.pure ()) fun _ =>
    PResult.bind (execS w (helmUpgradeCmd cfg targetEnv resolvedValuesFile)) fun _ =>
    (if cfg.deploymentTarget == "eks" then execSwallowed w (ingressCmd targetEnv)
     else PResult.pure ())
  else
    ⟨[], Except.error (PErr.configError
      ("Environment values file not found: " ++ valuesFile ++
        ". Valid environments: dev, staging, prod"))⟩

/-- JavaScript `.trim()`: strip whitespace from both ends. (Structural
model of `String.trim`, whose auxiliaries are well-founded recursions the
kernel cannot evaluate.) -/
def trimStr (s : String) : String :=
  String.mk (((s.data.dropWhile Char.isWhitespace).reverse.dropWhile Char.isWhitespace).reverse)

/-- The `helm test` command (note the interpolation of the empty
namespace argument on the non-`eks` target, then `.trim()`). -/
def helmTestCmd (cfg : Config) (env : String) : String :=
  trimStr ("helm test " ++ releaseName cfg env ++ " " ++
    (if cfg.deploymentTarget == "eks" then "--namespace " ++ env else "") ++
    " --timeout 60s")

/-- `helmTest`: run the in-cluster connectivity test for the release (the
`try`/`catch` rethrows, so it is semantically transparent). -/
def helmTest (w : World) (cfg : Config) (env : Option String) : PResult Unit :=
  let targetEnv := env.getD cfg.deployEnv
  execS w (helmTestCmd cfg targetEnv)

/-- The ordered environment list of `deployAll`. -/
def environments : List String := ["dev", "staging", "prod"]

/-- The `for`-loop body of `deployAll`: deploy then test each environment
in order, aborting on the first thrown error. -/
def deployAndTest (w : World) (cfg : Config) : List String → PResult Unit
  | [] => PResult.pure ()
  | e :: es =>
    PResult.bind (deploy w cfg (some e)) fun _ =>
    PResult.bind (helmTest w cfg (some e)) fun _ =>
    deployAndTest w cfg es

/-- `deployAll`: deploy-then-test over `[dev, staging, prod]`. -/
def deployAll (w : World) (cfg : Config) : PResult Unit :=
  deployAndTest w cfg environments

/-- The deployment phase of the pipeline: `deployAll` on `eks`,
otherwise deploy then helm-test for the single configured environment. -/
def deployStage (w : World) (cfg : Config) : PResult Unit :=
  if cfg.deploymentTarget == "eks" then deployAll w cfg
  else
    PResult.bind (deploy w cfg none) fun _ => helmTest w cfg none

/-- `pipeline`: lint → test → chart-lint → build → deployment phase. -/
def pipeline (w : World) (cfg : Config) : PResult Unit :=
  PResult.bind (lint w) fun _ =>
  PResult.bind (test w) fun _ =>
  PResult.bind (chartLint w) fun _ =>
  PResult.bind (build w cfg) fun _ =>
  deployStage w cfg

/-! ### Concrete configurations and worlds used by scenario theorems -/

/-- The default configuration: all environment variables unset. -/
def kindCfg : Config := ⟨"kind", "us-east-1", "", "", "latest", "dev"⟩

/-- `DEPLOY_ENV=staging`, `DEPLOYMENT_TARGET=kind`. -/
def kindStagingCfg : Config := ⟨"kind", "us-east-1", "", "", "latest", "staging"⟩

/-- `DEPLOY_ENV=staging`, `DEPLOYMENT_TARGET=eks`, full EKS variables. -/
def eksStagingCfg : Config :=
  ⟨"eks", "us-east-1", "111122223333",
    "111122223333.dkr.ecr.us-east-1.amazonaws.com/sample-app", "latest", "staging"⟩

/-- `DEPLOYMENT_TARGET=eks` with `ECR_REPO_URI` missing. -/
def eksNoUriCfg : Config := ⟨"eks", "us-east-1", "111122223333", "", "latest", "dev"⟩

/-- `DEPLOYMENT_TARGET=eks` with a pathological repository URI equal to
the placeholder token itself. -/
def eksSelfTokCfg : Config :=
  ⟨"eks", "us-east-1", "111122223333", "${ECR_REPO_URI}", "latest", "dev"⟩

/-- `DEPLOYMENT_TARGET=eks` with the repository URI `$&`, which
`GetSubstitution` expands to the matched text itself. -/
def eksDollarAmpCfg : Config :=
  ⟨"eks", "us-east-1", "111122223333", "$&", "latest", "dev"⟩

/-- A world where every file exists, every command succeeds, the values
files contain the placeholder token, and the environments directory holds
three overlays plus one non-YAML file. -/
def wAllOk : World :=
  ⟨fun _ => true, fun _ => "image: ${ECR_REPO_URI}",
    fun _ => ["dev.yaml", "staging.yaml", "prod.yaml", "README.md"],
    fun _ => true, fun _ => true, "/tmp", 0⟩

/-- Like `wAllOk` but with a fourth environment overlay added. -/
def wFourEnvs : World :=
  ⟨fun _ => true, fun _ => "image: ${ECR_REPO_URI}",
    fun _ => ["dev.yaml", "staging.yaml", "prod.yaml", "README.md", "qa.yaml"],
    fun _ => true, fun _ => true, "/tmp", 0⟩

/-- A world where exactly the `helm upgrade` of the staging environment
(on the default kind target) fails. -/
def wStagingFail : World :=
  ⟨fun _ => true, fun _ => "", fun _ => [],
    fun c => c != helmUpgradeCmd kindCfg "staging" (getEnvironmentFile kindCfg "staging"),
    fun _ => true, "/tmp", 0⟩

/-- A world where exactly the `helm upgrade` of the dev environment (on
the default kind target) fails. -/
def wDevDeployFail : World :=
  ⟨fun _ => true, fun _ => "", fun _ => [],
    fun c => c != helmUpgradeCmd kindCfg "dev" (getEnvironmentFile kindCfg "dev"),
    fun _ => true, "/tmp", 0⟩

/-- A world where exactly the `helm test` of the dev environment (on the
default kind target) fails. -/
def wDevTestFail : World :=
  ⟨fun _ => true, fun _ => "", fun _ => [],
    fun c => c != helmTestCmd kindCfg "dev", fun _ => true, "/tmp", 0⟩

/-- A world where `npm run lint` fails. -/
def wLintFail : World :=
  ⟨fun _ => true, fun _ => "", fun _ => [],
    fun _ => true, fun a => a != ["npm", "run", "lint"], "/tmp", 0⟩

/-- A world where `npm test` fails. -/
def wTestFail : World :=
  ⟨fun _ => true, fun _ => "", fun _ => [],
    fun _ => true, fun a => a != ["npm", "test"], "/tmp", 0⟩

/-- A world where the bare `helm lint` fails. -/
def wChartFail : World :=
  ⟨fun _ => true, fun _ => "", fun _ => [],
    fun c => c != chartLintBaseCmd, fun _ => true, "/tmp", 0⟩

/-- A world where `docker build` (for the default configuration) fails. -/
def wBuildFail : World :=
  ⟨fun _ => true, fun _ => "", fun _ => [],
    fun c => c != dockerBuildCmd kindCfg, fun _ => true, "/tmp", 0⟩

/-- A world where no values file exists. -/
def wNoFiles : World :=
  ⟨fun _ => false, fun _ => "", fun _ => [], fun _ => true, fun _ => true, "/tmp", 0⟩

/-- A world for the EKS namespace-failure scenario: everything succeeds
except the namespace-creation command of the staging environment. -/
def wNsFail : World :=
  ⟨fun _ => true, fun _ => "image: ${ECR_REPO_URI}",
    fun _ => ["dev.yaml", "staging.yaml", "prod.yaml", "README.md"],
    fun c => c != nsCreateCmd "staging", fun _ => true, "/tmp", 0⟩

/-! ### Generic lemmas about the effect monad -/

theorem PResult.bind_of_err {α β : Type} (x : PResult α) (f : α → PResult β) (e : PErr)
    (hx : x.result = Except.error e) : PResult.bind x f = ⟨x.trace, Except.error e⟩ := by
  unfold PResult.bind
  rw [hx]

theorem PResult.bind_of_ok {α β : Type} (x : PResult α) (f : α → PResult β) (a : α)
    (hx : x.result = Except.ok a) :
    PResult.bind x f = ⟨x.trace ++ (f a).trace, (f a).result⟩ := by
  unfold PResult.bind
  rw [hx]

theorem PResult.bind_trace_grows {α β : Type} (x : PResult α) (f : α → PResult β) :
    ∃ t, (PResult.bind x f).trace = x.trace ++ t := by
  unfold PResult.bind
  cases hx : x.result with
  | error e => exact ⟨[], by simp⟩
  | ok a => exact ⟨(f a).trace, rfl⟩

/-! ### Behaviour of `deploy` and `helmTest` on the kind target -/

theorem deploy_kind_ok (w : World) (env : String)
    (hex : w.fileExists (getEnvironmentFile kindCfg env) = true)
    (hok : w.execOk (helmUpgradeCmd kindCfg env (getEnvironmentFile kindCfg env)) = true) :
    deploy w kindCfg (some env) =
      ⟨[Ev.exec (helmUpgradeCmd kindCfg env (getEnvironmentFile kindCfg env))], Except.ok ()⟩ := by
  have hdt : kindCfg.deploymentTarget = "kind" := rfl
  have hu : kindCfg.ecrRepoUri = "" := rfl
  simp only [deploy, Option.getD]
  rw [hex]
  simp [substituteEcrUri, execS, PResult.bind, PResult.pure, hdt, hu, hok]

theorem deploy_kind_fail (w : World) (env : String)
    (hex : w.fileExists (getEnvironmentFile kindCfg env) = true)
    (hko : w.execOk (helmUpgradeCmd kindCfg env (getEnvironmentFile kindCfg env)) = false) :
    deploy w kindCfg (some env) =
      ⟨[Ev.exec (helmUpgradeCmd kindCfg env (getEnvironmentFile kindCfg env))],
        Except.error (PErr.toolFailure (helmUpgradeCmd kindCfg env (getEnvironmentFile kindCfg env)))⟩ := by
  have hdt : kindCfg.deploymentTarget = "kind" := rfl
  have hu : kindCfg.ecrRepoUri = "" := rfl
  simp only [deploy, Option.getD]
  rw [hex]
  simp [substituteEcrUri, execS, PResult.bind, PResult.pure, hdt, hu, hko]

theorem helmTest_ok (w : World) (cfg : Config) (env : String)
    (hok : w.execOk (helmTestCmd cfg env) = true) :
    helmTest w cfg (some env) = ⟨[Ev.exec (helmTestCmd cfg env)], Except.ok ()⟩ := by
  simp only [helmTest, Option.getD, execS]
  rw [hok]
  rfl

/-! ### Claim theorems -/

/-- General abort behaviour of the environment loop: for any
configuration and any decomposition `pre ++ e :: post` of the environment
list where every environment of `pre` deployed and tested successfully,
a deploy failure at `e` (respectively a helm-test failure at `e` after a
successful deploy) ends the loop with exactly the events of `pre` plus
the failing step — the environments of `post` contribute no event. -/
theorem deployAndTest_abort (w : World) (cfg : Config) :
    ∀ (pre : List String) (e : String) (post : List String),
      (∀ x ∈ pre, (deploy w cfg (some x)).result = Except.ok () ∧
        (helmTest w cfg (some x)).result = Except.ok ()) →
      (∀ err, (deploy w cfg (some e)).result = Except.error err →
        deployAndTest w cfg (pre ++ e :: post) =
          ⟨(pre.map (fun x => (deploy w cfg (some x)).trace ++
              (helmTest w cfg (some x)).trace)).flatten ++ (deploy w cfg (some e)).trace,
            Except.error err⟩) ∧
      ((deploy w cfg (some e)).result = Except.ok () →
        ∀ err, (helmTest w cfg (some e)).result = Except.error err →
        deployAndTest w cfg (pre ++ e :: post) =
          ⟨(pre.map (fun x => (deploy w cfg (some x)).trace ++
              (helmTest w cfg (some x)).trace)).flatten ++ (deploy w cfg (some e)).trace ++
              (helmTest w cfg (some e)).trace, Except.error err⟩) := by
  intro pre
  induction pre with
  | nil =>
    intro e post _
    constructor
    · intro err hdep
      simp only [List.nil_append, deployAndTest]
      rw [PResult.bind_of_err _ _ err hdep]
      simp
    · intro hdep err htest
      simp only [List.nil_append, deployAndTest]
      rw [PResult.bind_of_ok _ _ () hdep, PResult.bind_of_err _ _ err htest]
      simp
  | cons p pre ih =>
    intro e post hpre
    have hp := hpre p (by simp)
    have hpre2 : ∀ x ∈ pre, (deploy w cfg (some x)).result = Except.ok () ∧
        (helmTest w cfg (some x)).result = Except.ok () :=
      fun x hx => hpre x (by simp [hx])
    constructor
    · intro err hdep
      have hrec := (ih e post hpre2).1 err hdep
      simp only [List.cons_append, deployAndTest, List.append_eq]
      rw [PResult.bind_of_ok _ _ () hp.1, PResult.bind_of_ok _ _ () hp.2, hrec]
      simp [List.append_assoc]
    · intro hdep err htest
      have hrec := (ih e post hpre2).2 hdep err htest
      simp only [List.cons_append, deployAndTest, List.append_eq]
      rw [PResult.bind_of_ok _ _ () hp.1, PResult.bind_of_ok _ _ () hp.2, hrec]
      simp [List.append_assoc]

/-- Claim C1: `deployAll` runs deploy then helm-test for dev, staging,
prod in that order: when every step succeeds the trace is the six
invocations in order; if deploy or helm-test fails for any environment —
any decomposition `pre ++ e :: post` of the list with `pre` successful
and the deploy (or the helm-test) of `e` failing — the run ends with
exactly the events of the completed environments plus the failing step,
so every later environment is never attempted and no rollback or
compensation event is ever issued; in particular, for a deploy failure
injected at staging on the default configuration, dev is deployed and
tested and prod is never attempted. -/
theorem c1_sequencer_fail_fast (w : World) :
    ((∀ e ∈ environments,
        w.fileExists (getEnvironmentFile kindCfg e) = true ∧
        w.execOk (helmUpgradeCmd kindCfg e (getEnvironmentFile kindCfg e)) = true ∧
        w.execOk (helmTestCmd kindCfg e) = true) →
      deployAll w kindCfg =
        ⟨[Ev.exec (helmUpgradeCmd kindCfg "dev" (getEnvironmentFile kindCfg "dev")),
          Ev.exec (helmTestCmd kindCfg "dev"),
          Ev.exec (helmUpgradeCmd kindCfg "staging" (getEnvironmentFile kindCfg "staging")),
          Ev.exec (helmTestCmd kindCfg "staging"),
          Ev.exec (helmUpgradeCmd kindCfg "prod" (getEnvironmentFile kindCfg "prod")),
          Ev.exec (helmTestCmd kindCfg "prod")], Except.ok ()⟩) ∧
    (w.fileExists (getEnvironmentFile kindCfg "dev") = true →
      w.fileExists (getEnvironmentFile kindCfg "staging") = true →
      w.execOk (helmUpgradeCmd kindCfg "dev" (getEnvironmentFile kindCfg "dev")) = true →
      w.execOk (helmTestCmd kindCfg "dev") = true →
      w.execOk (helmUpgradeCmd kindCfg "staging" (getEnvironmentFile kindCfg "staging")) = false →
      deployAll w kindCfg =
        ⟨[Ev.exec (helmUpgradeCmd kindCfg "dev" (getEnvironmentFile kindCfg "dev")),
          Ev.exec (helmTestCmd kindCfg "dev"),
          Ev.exec (helmUpgradeCmd kindCfg "staging" (getEnvironmentFile kindCfg "staging"))],
         Except.error (PErr.toolFailure
           (helmUpgradeCmd kindCfg "staging" (getEnvironmentFile kindCfg "staging")))⟩ ∧
      Ev.exec (helmUpgradeCmd kindCfg "prod" (getEnvironmentFile kindCfg "prod")) ∉
        (deployAll w kindCfg).trace) ∧
    (∀ (cfg : Config) (pre : List String) (e : String) (post : List String),
      (∀ x ∈ pre, (deploy w cfg (some x)).result = Except.ok () ∧
        (helmTest w cfg (some x)).result = Except.ok ()) →
      (∀ err, (deploy w cfg (some e)).result = Except.error err →
        deployAndTest w cfg (pre ++ e :: post) =
          ⟨(pre.map (fun x => (deploy w cfg (some x)).trace ++
              (helmTest w cfg (some x)).trace)).flatten ++ (deploy w cfg (some e)).trace,
            Except.error err⟩) ∧
      ((deploy w cfg (some e)).result = Except.ok () →
        ∀ err, (helmTest w cfg (some e)).result = Except.error err →
        deployAndTest w cfg (pre ++ e :: post) =
          ⟨(pre.map (fun x => (deploy w cfg (some x)).trace ++
              (helmTest w cfg (some x)).trace)).flatten ++ (deploy w cfg (some e)).trace ++
              (helmTest w cfg (some e)).trace, Except.error err⟩)) := by
  refine ⟨?_, ?_, fun cfg => deployAndTest_abort w cfg⟩
  · intro hAll
    have hd := hAll "dev" (by simp [environments])
    have hs := hAll "staging" (by simp [environments])
    have hp := hAll "prod" (by simp [environments])
    simp only [deployAll, environments, deployAndTest]
    rw [deploy_kind_ok w "dev" hd.1 hd.2.1, helmTest_ok w kindCfg "dev" hd.2.2,
      deploy_kind_ok w "staging" hs.1 hs.2.1, helmTest_ok w kindCfg "staging" hs.2.2,
      deploy_kind_ok w "prod" hp.1 hp.2.1, helmTest_ok w kindCfg "prod" hp.2.2]
    rfl
  · intro h1 h2 h3 h4 h5
    have e1 := deploy_kind_ok w "dev" h1 h3
    have e2 := helmTest_ok w kindCfg "dev" h4
    have e3 := deploy_kind_fail w "staging" h2 h5
    have htr : deployAll w kindCfg =
        ⟨[Ev.exec (helmUpgradeCmd kindCfg "dev" (getEnvironmentFile kindCfg "dev")),
          Ev.exec (helmTestCmd kindCfg "dev"),
          Ev.exec (helmUpgradeCmd kindCfg "staging" (getEnvironmentFile kindCfg "staging"))],
         Except.error (PErr.toolFailure
           (helmUpgradeCmd kindCfg "staging" (getEnvironmentFile kindCfg "staging")))⟩ := by
      simp only [deployAll, environments, deployAndTest]
      rw [e1, e2, e3]
      rfl
    refine ⟨htr, ?_⟩
    rw [htr]
    simp [Ev.exec.injEq]
    decide

/-- Witness for C1: the all-success world, the staging deploy-failure
world, a dev deploy-failure world, and a dev helm-test-failure world (the
last showing a helm-test failure aborts the sequence before staging and
prod). -/
theorem c1_sequencer_fail_fast_witness :
    deployAll wAllOk kindCfg =
      ⟨[Ev.exec (helmUpgradeCmd kindCfg "dev" (getEnvironmentFile kindCfg "dev")),
        Ev.exec (helmTestCmd kindCfg "dev"),
        Ev.exec (helmUpgradeCmd kindCfg "staging" (getEnvironmentFile kindCfg "staging")),
        Ev.exec (helmTestCmd kindCfg "staging"),
        Ev.exec (helmUpgradeCmd kindCfg "prod" (getEnvironmentFile kindCfg "prod")),
        Ev.exec (helmTestCmd kindCfg "prod")], Except.ok ()⟩ ∧
    (deployAll wStagingFail kindCfg =
      ⟨[Ev.exec (helmUpgradeCmd kindCfg "dev" (getEnvironmentFile kindCfg "dev")),
        Ev.exec (helmTestCmd kindCfg "dev"),
        Ev.exec (helmUpgradeCmd kindCfg "staging" (getEnvironmentFile kindCfg "staging"))],
       Except.error (PErr.toolFailure
         (helmUpgradeCmd kindCfg "staging" (getEnvironmentFile kindCfg "staging")))⟩ ∧
      Ev.exec (helmUpgradeCmd kindCfg "prod" (getEnvironmentFile kindCfg "prod")) ∉
        (deployAll wStagingFail kindCfg).trace) ∧
    deployAll wDevDeployFail kindCfg =
      ⟨[Ev.exec (helmUpgradeCmd kindCfg "dev" (getEnvironmentFile kindCfg "dev"))],
       Except.error (PErr.toolFailure
         (helmUpgradeCmd kindCfg "dev" (getEnvironmentFile kindCfg "dev")))⟩ ∧
    deployAll wDevTestFail kindCfg =
      ⟨[Ev.exec (helmUpgradeCmd kindCfg "dev" (getEnvironmentFile kindCfg "dev")),
        Ev.exec (helmTestCmd kindCfg "dev")],
       Except.error (PErr.toolFailure (helmTestCmd kindCfg "dev"))⟩ := by
  refine ⟨(c1_sequencer_fail_fast wAllOk).1 (fun _ _ => ⟨rfl, rfl, rfl⟩),
    (c1_sequencer_fail_fast wStagingFail).2.1 rfl rfl (by decide) (by decide) (by decide),
    ?_, ?_⟩
  · have h := ((c1_sequencer_fail_fast wDevDeployFail).2.2 kindCfg [] "dev"
      ["staging", "prod"] (fun x hx => absurd hx (List.not_mem_nil x))).1
      (PErr.toolFailure (helmUpgradeCmd kindCfg "dev" (getEnvironmentFile kindCfg "dev")))
      (by decide)
    exact h
  · have h := ((c1_sequencer_fail_fast wDevTestFail).2.2 kindCfg [] "dev"
      ["staging", "prod"] (fun x hx => absurd hx (List.not_mem_nil x))).2
      (by decide) (PErr.toolFailure (helmTestCmd kindCfg "dev")) (by decide)
    exact h

/-- Claim C6: on the Kind target the registry host is the fixed local
`localhost:5001`, the chart reference is the local OCI path, and the
values-file path of environment `env` is `environments/<env>.yaml`; on
the EKS target the registry host, image reference and chart reference are
derived only from the supplied account id, region and repository URI, and
the values-file path is `environments/eks-<env>.yaml`. -/
theorem c6_target_resolution (cfg : Config) (env : String) :
    (cfg.deploymentTarget = "kind" →
      REGISTRY cfg = "localhost:5001" ∧
      IMAGE_NAME cfg = "localhost:5001/sample-app" ∧
      CHART_REPO cfg = "oci://localhost:5001/charts" ∧
      getEnvironmentFile cfg env = "environments/" ++ env ++ ".yaml") ∧
    (cfg.deploymentTarget = "eks" →
      REGISTRY cfg = cfg.awsAccountId ++ ".dkr.ecr." ++ cfg.awsRegion ++ ".amazonaws.com" ∧
      IMAGE_NAME cfg = cfg.ecrRepoUri ∧
      FULL_IMAGE cfg = cfg.ecrRepoUri ++ ":" ++ cfg.imageTag ∧
      CHART_REPO cfg =
        "oci://" ++ (cfg.awsAccountId ++ ".dkr.ecr." ++ cfg.awsRegion ++ ".amazonaws.com") ++ "/charts" ∧
      getEnvironmentFile cfg env = "environments/eks-" ++ env ++ ".yaml") := by
  constructor
  · intro h
    simp [REGISTRY, IMAGE_NAME, CHART_REPO, getEnvironmentFile, environmentsDir, h]
  · intro h
    simp [REGISTRY, IMAGE_NAME, CHART_REPO, FULL_IMAGE, getEnvironmentFile, environmentsDir, h]

/-- Witness for C6 at the concrete kind and EKS configurations. -/
theorem c6_target_resolution_witness :
    (kindCfg.deploymentTarget = "kind" ∧
      REGISTRY kindCfg = "localhost:5001" ∧
      IMAGE_NAME kindCfg = "localhost:5001/sample-app" ∧
      CHART_REPO kindCfg = "oci://localhost:5001/charts" ∧
      getEnvironmentFile kindCfg "staging" = "environments/" ++ "staging" ++ ".yaml") ∧
    (eksStagingCfg.deploymentTarget = "eks" ∧
      IMAGE_NAME eksStagingCfg = eksStagingCfg.ecrRepoUri ∧
      getEnvironmentFile eksStagingCfg "staging" = "environments/eks-" ++ "staging" ++ ".yaml") := by
  refine ⟨⟨rfl, ?_⟩, rfl, ?_⟩
  · exact (c6_target_resolution kindCfg "staging").1 rfl
  · have h := (c6_target_resolution eksStagingCfg "staging").2 rfl
    exact ⟨h.2.1, h.2.2.2.2⟩

/-- `lintEnvFiles` on an all-successful file list: one `helm lint -f`
invocation per file, in order. -/
theorem lintEnvFiles_all_ok (w : World) :
    ∀ fs : List String, (∀ f ∈ fs, w.execOk (chartLintFileCmd f) = true) →
      lintEnvFiles w fs =
        ⟨fs.map (fun f => Ev.exec (chartLintFileCmd f)), Except.ok ()⟩ := by
  intro fs
  induction fs with
  | nil => intro _; rfl
  | cons f fs ih =>
    intro h
    have hf := h f (by simp)
    have hrest := ih (fun g hg => h g (by simp [hg]))
    simp [lintEnvFiles, execS, PResult.bind, hf, hrest]

/-- `lintEnvFiles` succeeds iff every per-file invocation succeeds. -/
theorem lintEnvFiles_ok_iff (w : World) :
    ∀ fs : List String, (lintEnvFiles w fs).result = Except.ok () ↔
      ∀ f ∈ fs, w.execOk (chartLintFileCmd f) = true := by
  intro fs
  induction fs with
  | nil => simp [lintEnvFiles, PResult.pure]
  | cons f fs ih =>
    cases hf : w.execOk (chartLintFileCmd f) with
    | true => simp [lintEnvFiles, execS, PResult.bind, hf, ih]
    | false =>
      simp only [lintEnvFiles, execS, PResult.bind, hf]
      constructor
      · intro hcontra
        exact absurd hcontra (by simp)
      · intro hall
        exact absurd (hall f (by simp)) (by simp [hf])

/-- Claim C7: `chart-lint` invokes the chart validator exactly once with
no overlay plus exactly once per `*.yaml` file of the environments
directory (in particular the invocation count is `1 + number of yaml
files`, so one added overlay adds exactly one invocation), and a
validator failure on any invocation aborts the stage. -/
theorem c7_chart_lint_invocations (w : World) :
    (w.execOk chartLintBaseCmd = true →
      (∀ f ∈ envYamlFiles w, w.execOk (chartLintFileCmd f) = true) →
      chartLint w =
        ⟨Ev.exec chartLintBaseCmd ::
          (envYamlFiles w).map (fun f => Ev.exec (chartLintFileCmd f)), Except.ok ()⟩ ∧
      (chartLint w).trace.length = 1 + (envYamlFiles w).length) ∧
    ((chartLint w).result = Except.ok () →
      w.execOk chartLintBaseCmd = true ∧
      ∀ f ∈ envYamlFiles w, w.execOk (chartLintFileCmd f) = true) ∧
    (∀ (w' : World) (g : String),
      w.execOk chartLintBaseCmd = true →
      (∀ f ∈ envYamlFiles w, w.execOk (chartLintFileCmd f) = true) →
      w'.execOk chartLintBaseCmd = true →
      (∀ f ∈ envYamlFiles w', w'.execOk (chartLintFileCmd f) = true) →
      envYamlFiles w' = envYamlFiles w ++ [g] →
      (chartLint w').trace.length = (chartLint w).trace.length + 1) := by
  refine ⟨?_, ?_, ?_⟩
  · intro hb hall
    have heq : chartLint w =
        ⟨Ev.exec chartLintBaseCmd ::
          (envYamlFiles w).map (fun f => Ev.exec (chartLintFileCmd f)), Except.ok ()⟩ := by
      simp [chartLint, execS, PResult.bind, hb, lintEnvFiles_all_ok w _ hall]
    refine ⟨heq, ?_⟩
    rw [heq]
    simp [Nat.add_comm]
  · intro hok
    cases hb : w.execOk chartLintBaseCmd with
    | false =>
      exfalso
      have : (chartLint w).result = Except.error (PErr.toolFailure chartLintBaseCmd) := by
        simp [chartLint, execS, PResult.bind, hb]
      rw [this] at hok
      exact absurd hok (by simp)
    | true =>
      refine ⟨rfl, ?_⟩
      have : (chartLint w).result = (lintEnvFiles w (envYamlFiles w)).result := by
        simp [chartLint, execS, PResult.bind, hb]
      rw [this] at hok
      exact (lintEnvFiles_ok_iff w (envYamlFiles w)).1 hok
  · intro w' g hb hall hb' hall' hplus
    have h1 : chartLint w =
        ⟨Ev.exec chartLintBaseCmd ::
          (envYamlFiles w).map (fun f => Ev.exec (chartLintFileCmd f)), Except.ok ()⟩ := by
      simp [chartLint, execS, PResult.bind, hb, lintEnvFiles_all_ok w _ hall]
    have h2 : chartLint w' =
        ⟨Ev.exec chartLintBaseCmd ::
          (envYamlFiles w').map (fun f => Ev.exec (chartLintFileCmd f)), Except.ok ()⟩ := by
      simp [chartLint, execS, PResult.bind, hb', lintEnvFiles_all_ok w' _ hall']
    rw [h1, h2, hplus]
    simp

/-- Witness for C7: three overlays plus a non-YAML file give four
invocations; with a fourth overlay added the count rises by one. -/
theorem c7_chart_lint_invocations_witness :
    wAllOk.execOk chartLintBaseCmd = true ∧
    envYamlFiles wAllOk = ["dev.yaml", "staging.yaml", "prod.yaml"] ∧
    (chartLint wAllOk).trace.length = 1 + (envYamlFiles wAllOk).length ∧
    envYamlFiles wFourEnvs = envYamlFiles wAllOk ++ ["qa.yaml"] ∧
    (chartLint wFourEnvs).trace.length = (chartLint wAllOk).trace.length + 1 := by
  refine ⟨rfl, by decide, ?_, by decide, ?_⟩
  · exact ((c7_chart_lint_invocations wAllOk).1 rfl (fun _ _ => rfl)).2
  · exact (c7_chart_lint_invocations wAllOk).2.2 wFourEnvs "qa.yaml" rfl (fun _ _ => rfl) rfl
      (fun _ _ => rfl) (by decide)

/-- Claim C5: the full pipeline runs lint → test → chart-lint → build →
deployment phase in that fixed order and aborts the whole run at the
first failing stage, skipping all later stages: the trace is always the
concatenation of the completed stages plus the failing one, and the
deployment phase runs only after the four previous stages succeeded. -/
theorem c5_pipeline_fixed_order (w : World) (cfg : Config) :
    (∀ e, (lint w).result = Except.error e →
      pipeline w cfg = ⟨(lint w).trace, Except.error e⟩) ∧
    ((lint w).result = Except.ok () → ∀ e, (test w).result = Except.error e →
      pipeline w cfg = ⟨(lint w).trace ++ (test w).trace, Except.error e⟩) ∧
    ((lint w).result = Except.ok () → (test w).result = Except.ok () →
      ∀ e, (chartLint w).result = Except.error e →
      pipeline w cfg =
        ⟨(lint w).trace ++ (test w).trace ++ (chartLint w).trace, Except.error e⟩) ∧
    ((lint w).result = Except.ok () → (test w).result = Except.ok () →
      (chartLint w).result = Except.ok () → ∀ e, (build w cfg).result = Except.error e →
      pipeline w cfg =
        ⟨(lint w).trace ++ (test w).trace ++ (chartLint w).trace ++ (build w cfg).trace,
          Except.error e⟩) ∧
    ((lint w).result = Except.ok () → (test w).result = Except.ok () →
      (chartLint w).result = Except.ok () → ∀ s, (build w cfg).result = Except.ok s →
      pipeline w cfg =
        ⟨(lint w).trace ++ (test w).trace ++ (chartLint w).trace ++ (build w cfg).trace ++
            (deployStage w cfg).trace,
          (deployStage w cfg).result⟩) := by
  refine ⟨?_, ?_, ?_, ?_, ?_⟩
  · intro e he
    simp only [pipeline]
    rw [PResult.bind_of_err _ _ e he]
  · intro h1 e he
    simp only [pipeline]
    rw [PResult.bind_of_ok _ _ () h1, PResult.bind_of_err _ _ e he]
  · intro h1 h2 e he
    simp only [pipeline]
    rw [PResult.bind_of_ok _ _ () h1, PResult.bind_of_ok _ _ () h2,
      PResult.bind_of_err _ _ e he]
    simp [List.append_assoc]
  · intro h1 h2 h3 e he
    simp only [pipeline]
    rw [PResult.bind_of_ok _ _ () h1, PResult.bind_of_ok _ _ () h2,
      PResult.bind_of_ok _ _ () h3, PResult.bind_of_err _ _ e he]
    simp [List.append_assoc]
  · intro h1 h2 h3 s hs
    simp only [pipeline]
    rw [PResult.bind_of_ok _ _ () h1, PResult.bind_of_ok _ _ () h2,
      PResult.bind_of_ok _ _ () h3, PResult.bind_of_ok _ _ s hs]
    simp [List.append_assoc]

/-- Witness for C5: a failing chart lint aborts before any build event,
and the all-success world completes every stage in order. -/
theorem c5_pipeline_fixed_order_witness :
    ((lint wChartFail).result = Except.ok () ∧
      (test wChartFail).result = Except.ok () ∧
      (chartLint wChartFail).result = Except.error (PErr.toolFailure chartLintBaseCmd) ∧
      pipeline wChartFail kindCfg =
        ⟨(lint wChartFail).trace ++ (test wChartFail).trace ++ (chartLint wChartFail).trace,
          Except.error (PErr.toolFailure chartLintBaseCmd)⟩) ∧
    ((build wAllOk kindCfg).result = Except.ok (FULL_IMAGE kindCfg) ∧
      pipeline wAllOk kindCfg =
        ⟨(lint wAllOk).trace ++ (test wAllOk).trace ++ (chartLint wAllOk).trace ++
            (build wAllOk kindCfg).trace ++ (deployStage wAllOk kindCfg).trace,
          (deployStage wAllOk kindCfg).result⟩) := by
  constructor
  · refine ⟨rfl, rfl, by decide, ?_⟩
    exact (c5_pipeline_fixed_order wChartFail kindCfg).2.2.1 (by decide) (by decide)
      (PErr.toolFailure chartLintBaseCmd) (by decide)
  · refine ⟨rfl, ?_⟩
    exact (c5_pipeline_fixed_order wAllOk kindCfg).2.2.2.2 (by decide) (by decide) (by decide)
      (FULL_IMAGE kindCfg) (by decide)

/-- Never-`configError` helper: an `execSync` step only fails with a tool
failure. -/
theorem execS_no_config (w : World) (cmd : String) (m : String) :
    (execS w cmd).result ≠ Except.error (PErr.configError m) := by
  simp only [execS]
  cases h : w.execOk cmd <;> simp

/-- Never-`configError` helper for sequencing. -/
theorem bind_no_config {α β : Type} (x : PResult α) (f : α → PResult β)
    (hx : ∀ m, x.result ≠ Except.error (PErr.configError m))
    (hf : ∀ a m, (f a).result ≠ Except.error (PErr.configError m)) :
    ∀ m, (PResult.bind x f).result ≠ Except.error (PErr.configError m) := by
  intro m
  unfold PResult.bind
  cases hr : x.result with
  | error e =>
    simp only
    intro hcontra
    apply hx m
    rw [hr]
    simpa using hcontra
  | ok a =>
    simp only
    exact hf a m

/-- Amended claim C2: with target EKS and `ECR_REPO_URI` missing there is
no fail-fast configuration check at all — the very first action of
`build` is the ECR registry login (a network call), the image reference degenerates
to `:<tag>` with an empty repository, and no configuration error is ever
raised by `build` (its only failures come from the external tools). -/
theorem c2_no_failfast_missing_uri (w : World) (cfg : Config)
    (he : cfg.deploymentTarget = "eks") (hu : cfg.ecrRepoUri = "") :
    (∃ t, (build w cfg).trace = Ev.exec (ecrLoginCmd cfg) :: t) ∧
    (∀ m, (build w cfg).result ≠ Except.error (PErr.configError m)) ∧
    FULL_IMAGE cfg = ":" ++ cfg.imageTag := by
  have heb : (cfg.deploymentTarget == "eks") = true := by rw [he]; rfl
  refine ⟨?_, ?_, ?_⟩
  · simp only [build, heb, if_true]
    obtain ⟨t1, ht1⟩ := PResult.bind_trace_grows (execS w (ecrLoginCmd cfg))
      (fun _ => execS w (helmLoginCmd cfg))
    obtain ⟨t2, ht2⟩ := PResult.bind_trace_grows
      (PResult.bind (execS w (ecrLoginCmd cfg)) fun _ => execS w (helmLoginCmd cfg))
      (fun _ =>
        PResult.bind (execS w (dockerBuildCmd cfg)) fun _ =>
        PResult.bind (execS w (dockerPushCmd cfg)) fun _ =>
        PResult.bind (execS w helmPackageCmd) fun _ =>
        PResult.bind (execS w (helmPushCmd cfg)) fun _ =>
        PResult.pure (FULL_IMAGE cfg))
    exact ⟨t1 ++ t2, by rw [ht2, ht1]; rfl⟩
  · simp only [build, heb, if_true]
    apply bind_no_config
    · apply bind_no_config
      · exact execS_no_config w (ecrLoginCmd cfg)
      · intro a; exact execS_no_config w (helmLoginCmd cfg)
    · intro a
      apply bind_no_config
      · exact execS_no_config w (dockerBuildCmd cfg)
      · intro b
        apply bind_no_config
        · exact execS_no_config w (dockerPushCmd cfg)
        · intro c
          apply bind_no_config
          · exact execS_no_config w helmPackageCmd
          · intro d
            apply bind_no_config
            · exact execS_no_config w (helmPushCmd cfg)
            · intro e m
              simp [PResult.pure]
  · simp only [FULL_IMAGE, IMAGE_NAME, heb, if_true]
    rw [hu]
    rfl

/-- Witness for the amended C2 at the concrete no-URI configuration. -/
theorem c2_no_failfast_missing_uri_witness :
    eksNoUriCfg.deploymentTarget = "eks" ∧ eksNoUriCfg.ecrRepoUri = "" ∧
    (∃ t, (build wAllOk eksNoUriCfg).trace = Ev.exec (ecrLoginCmd eksNoUriCfg) :: t) ∧
    FULL_IMAGE eksNoUriCfg = ":" ++ eksNoUriCfg.imageTag :=
  ⟨rfl, rfl, (c2_no_failfast_missing_uri wAllOk eksNoUriCfg rfl rfl).1,
    (c2_no_failfast_missing_uri wAllOk eksNoUriCfg rfl rfl).2.2⟩

/-- Counterexample to claim C2 as stated: with target EKS and the
repository URI missing, the run does not fail fast with a configuration
error before any network call — the very first event of `build` is the
ECR docker login, and with all tools succeeding the whole build completes
with the degenerate image reference `:latest`. -/
theorem c2_counterexample :
    (build wAllOk eksNoUriCfg).trace.head? = some (Ev.exec (ecrLoginCmd eksNoUriCfg)) ∧
    (build wAllOk eksNoUriCfg).result = Except.ok ":latest" ∧
    ecrLoginCmd eksNoUriCfg =
      ("aws ecr get-login-password --region us-east-1" ++
        " | docker login --username AWS --password-stdin" ++
        " 111122223333.dkr.ecr.us-east-1.amazonaws.com") :=
  ⟨rfl, rfl, rfl⟩

/-- `leadsWith p l` is exactly "`p` followed by something is `l`". -/
theorem leadsWith_iff : ∀ (p l : List Char), leadsWith p l = true ↔ ∃ t, p ++ t = l
  | [], l => by simp [leadsWith]
  | a :: as, [] => by simp [leadsWith]
  | a :: as, b :: bs => by
    simp only [leadsWith, Bool.and_eq_true, beq_iff_eq, leadsWith_iff as bs,
      List.cons_append, List.cons.injEq]
    constructor
    · rintro ⟨rfl, t, rfl⟩
      exact ⟨t, rfl, rfl⟩
    · rintro ⟨t, rfl, rfl⟩
      exact ⟨rfl, t, rfl⟩

/-- Characters sharing nothing with the token cannot start a token
occurrence: prepending them leaves the occurrence count unchanged. -/
theorem countTok_append_disjoint (u t : List Char) (hu : ∀ c ∈ u, c ∉ ecrToken) :
    countTok (u ++ t) = countTok t := by
  induction u with
  | nil => rfl
  | cons c u ih =>
    have hc : c ∉ ecrToken := hu c (by simp)
    have hne : ('$' == c) = false := by
      cases hch : ('$' == c) with
      | false => rfl
      | true =>
        exfalso
        have : c = '$' := (beq_iff_eq.mp hch).symm
        exact hc (this ▸ (by decide : '$' ∈ ecrToken))
    have hlw : leadsWith ecrToken (c :: (u ++ t)) = false := by
      rw [show ecrToken = '$' :: "{ECR_REPO_URI}".data from rfl]
      simp [leadsWith, hne]
    simp [List.cons_append, countTok, hlw, ih (fun x hx => hu x (by simp [hx]))]

/-- A prefix of the substituted text consisting purely of token
characters comes verbatim from the original text (the inserted URI
contains no token character, so the prefix cannot reach into it). -/
theorem tokenChars_sub_orig (uri : List Char) (hne : uri ≠ [])
    (hu : ∀ c ∈ uri, c ∉ ecrToken) :
    ∀ l p r, p ++ r = substAux uri l → (∀ c ∈ p, c ∈ ecrToken) → ∃ r2, p ++ r2 = l := by
  intro l
  induction l with
  | nil =>
    intro p r hpr hp
    simp only [substAux] at hpr
    have hp0 : p = [] := (List.append_eq_nil.mp hpr).1
    exact ⟨[], by simp [hp0]⟩
  | cons c cs ih =>
    intro p r hpr hp
    by_cases h : leadsWith ecrToken (c :: cs) = true
    · simp only [substAux] at hpr
      rw [if_pos h] at hpr
      cases p with
      | nil => exact ⟨c :: cs, rfl⟩
      | cons p0 p' =>
        cases uri with
        | nil => exact absurd rfl hne
        | cons u0 us =>
          have hp0 : p0 = u0 := by
            have := congrArg List.head? hpr
            simpa using this
          exact absurd (hp p0 (by simp)) (hp0 ▸ hu u0 (by simp))
    · simp only [substAux] at hpr
      rw [if_neg h] at hpr
      cases p with
      | nil => exact ⟨c :: cs, rfl⟩
      | cons p0 p' =>
        have hp0 : p0 = c ∧ p' ++ r = substAux uri cs := by
          constructor
          · have := congrArg List.head? hpr
            simpa using this
          · have := congrArg List.tail hpr
            simpa using this
        obtain ⟨r2, hr2⟩ := ih p' r hp0.2 (fun x hx => hp x (by simp [hx]))
        exact ⟨r2, by simp [hp0.1, hr2]⟩

/-- Main substitution lemma: if the URI is nonempty and shares no
character with the token, the substituted text contains no token
occurrence at all. -/
theorem substAux_no_token (uri : List Char) (hne : uri ≠ [])
    (hu : ∀ c ∈ uri, c ∉ ecrToken) :
    ∀ l : List Char, countTok (substAux uri l) = 0
  | [] => by simp [substAux, countTok]
  | c :: cs => by
    by_cases h : leadsWith ecrToken (c :: cs) = true
    · have hrest := substAux_no_token uri hne hu (List.drop ecrToken.length (c :: cs))
      simp only [substAux]
      rw [if_pos h, countTok_append_disjoint uri _ hu, hrest]
    · have hrest := substAux_no_token uri hne hu cs
      simp only [substAux]
      rw [if_neg h]
      have hlw : leadsWith ecrToken (c :: substAux uri cs) = false := by
        cases hlw2 : leadsWith ecrToken (c :: substAux uri cs) with
        | false => rfl
        | true =>
          exfalso
          obtain ⟨t, ht⟩ := (leadsWith_iff _ _).1 hlw2
          rw [show ecrToken = '$' :: "{ECR_REPO_URI}".data from rfl] at ht
          simp only [List.cons_append, List.cons.injEq] at ht
          obtain ⟨hc, htail⟩ := ht
          obtain ⟨r2, hr2⟩ := tokenChars_sub_orig uri hne hu cs "{ECR_REPO_URI}".data t htail
            (by decide)
          apply h
          refine (leadsWith_iff _ _).2 ⟨r2, ?_⟩
          rw [show ecrToken = '$' :: "{ECR_REPO_URI}".data from rfl]
          simp only [List.cons_append, List.cons.injEq]
          exact ⟨hc, hr2⟩
      simp [countTok, hlw, hrest]
termination_by l => l.length
decreasing_by
  all_goals
    have h15 : ecrToken.length = 15 := rfl
    simp [List.length_drop, h15, List.length_cons]
    try omega

/-- `splitTok` always yields at least one piece. -/
theorem splitTok_ne_nil : ∀ l : List Char, splitTok l ≠ []
  | [] => by simp [splitTok]
  | c :: cs => by
    by_cases h : leadsWith ecrToken (c :: cs) = true
    · simp [splitTok, if_pos h]
    · simp only [splitTok]
      rw [if_neg h]
      cases hs : splitTok cs <;> simp

/-- Substitution is interleaving the URI between the token-separated
pieces: the literal URI stands in each place the token stood. -/
theorem substAux_eq_interTok (uri : List Char) :
    ∀ l : List Char, substAux uri l = interTok uri (splitTok l)
  | [] => by simp [substAux, splitTok, interTok]
  | c :: cs => by
    by_cases h : leadsWith ecrToken (c :: cs) = true
    · have ih := substAux_eq_interTok uri (List.drop ecrToken.length (c :: cs))
      simp only [substAux, splitTok]
      rw [if_pos h, if_pos h, ih]
      cases hs : splitTok (List.drop ecrToken.length (c :: cs)) with
      | nil => exact absurd hs (splitTok_ne_nil _)
      | cons p ps => simp [interTok]
    · have ih := substAux_eq_interTok uri cs
      simp only [substAux, splitTok]
      rw [if_neg h, if_neg h, ih]
      cases hs : splitTok cs with
      | nil => exact absurd hs (splitTok_ne_nil _)
      | cons p ps =>
        cases ps with
        | nil => simp [interTok]
        | cons q qs => simp [interTok]
termination_by l => l.length
decreasing_by
  all_goals
    have h15 : ecrToken.length = 15 := rfl
    simp [List.length_drop, h15, List.length_cons]
    try omega

/-- Replacing the token by itself is the identity. -/
theorem substAux_token_id : ∀ l : List Char, substAux ecrToken l = l
  | [] => by simp [substAux]
  | c :: cs => by
    by_cases h : leadsWith ecrToken (c :: cs) = true
    · have ih := substAux_token_id (List.drop ecrToken.length (c :: cs))
      simp only [substAux]
      rw [if_pos h, ih]
      obtain ⟨t, ht⟩ := (leadsWith_iff _ _).1 h
      rw [← ht, List.drop_left]
    · have ih := substAux_token_id cs
      simp only [substAux]
      rw [if_neg h, ih]
termination_by l => l.length
decreasing_by
  all_goals
    have h15 : ecrToken.length = 15 := rfl
    simp [List.length_drop, h15, List.length_cons]
    try omega

/-- The pieces reassembled with the token give back the original text:
`splitTok` loses nothing. -/
theorem interTok_splitTok_id (l : List Char) : interTok ecrToken (splitTok l) = l := by
  rw [← substAux_eq_interTok ecrToken l, substAux_token_id]

/-- Unfolding equation of `expandRepl` at a literal (non-`$`) head. -/
theorem expandRepl_cons_lit (b m a : List Char) (c : Char) (rest : List Char)
    (hc : ¬(c = '$')) :
    expandRepl b m a (c :: rest) = c :: expandRepl b m a rest := by
  conv_lhs => rw [expandRepl.eq_def]
  simp [hc]

/-- A replacement string without `$` expands to itself: none of the
`GetSubstitution` patterns can occur. -/
theorem expandRepl_no_dollar (before matched after : List Char) :
    ∀ uri : List Char, '$' ∉ uri → expandRepl before matched after uri = uri := by
  intro uri
  induction uri with
  | nil => intro _; rfl
  | cons c rest ih =>
    intro h
    have hc : ¬(c = '$') := fun hcc => h (hcc ▸ List.mem_cons_self c rest)
    rw [expandRepl_cons_lit before matched after c rest hc,
      ih (fun hx => h (List.mem_cons_of_mem c hx))]

/-- For a `$`-free URI the JavaScript replacement coincides with the
purely literal replacement. -/
theorem substJS_no_dollar_eq (uri : List Char) (h : '$' ∉ uri) :
    ∀ (before l : List Char), substJS uri before l = substAux uri l
  | before, [] => by simp [substJS, substAux]
  | before, c :: cs => by
    by_cases hlw : leadsWith ecrToken (c :: cs) = true
    · have ih := substJS_no_dollar_eq uri h (before ++ ecrToken)
        (List.drop ecrToken.length (c :: cs))
      simp only [substJS, substAux]
      rw [if_pos hlw, if_pos hlw, ih, expandRepl_no_dollar _ _ _ uri h]
    · have ih := substJS_no_dollar_eq uri h (before ++ [c]) cs
      simp only [substJS, substAux]
      rw [if_neg hlw, if_neg hlw, ih]
termination_by _ l => l.length
decreasing_by
  all_goals
    have h15 : ecrToken.length = 15 := rfl
    simp [List.length_drop, h15, List.length_cons]
    try omega

/-- Amended claim C3: on the Kind target `substituteEcrUri` returns the
original values file unchanged with no write, regardless of token
presence; on the EKS target with a supplied (nonempty) repository URI it
writes a temp file whose content is the single-pass global replacement of
the token under ECMAScript `GetSubstitution` semantics. Provided the URI
contains no `$` character (so no replacement pattern `$$`, `$&`,
backquote or quote fires — true of any well-formed repository URI), the
replacement inserts the literal URI in each place a token stood (the
interleaving equations), and, provided the URI moreover shares no
character with the token `${ECR_REPO_URI}`, the resolved content has zero
remaining token occurrences. -/
theorem c3_placeholder_substitution (w : World) (cfg : Config) (vf : String) :
    (cfg.deploymentTarget ≠ "eks" →
      substituteEcrUri w cfg vf = ⟨[], Except.ok vf⟩) ∧
    (cfg.deploymentTarget = "eks" → cfg.ecrRepoUri ≠ "" →
      substituteEcrUri w cfg vf =
        ⟨[Ev.write (w.tmpdir ++ "/values-" ++ toString w.now ++ ".yaml")
            (String.mk (substJS cfg.ecrRepoUri.data [] (w.fileContent vf).data))],
          Except.ok (w.tmpdir ++ "/values-" ++ toString w.now ++ ".yaml")⟩ ∧
      ('$' ∉ cfg.ecrRepoUri.data →
        substJS cfg.ecrRepoUri.data [] (w.fileContent vf).data =
          substAux cfg.ecrRepoUri.data (w.fileContent vf).data ∧
        substAux cfg.ecrRepoUri.data (w.fileContent vf).data =
          interTok cfg.ecrRepoUri.data (splitTok (w.fileContent vf).data) ∧
        interTok ecrToken (splitTok (w.fileContent vf).data) = (w.fileContent vf).data ∧
        ((∀ c ∈ cfg.ecrRepoUri.data, c ∉ ecrToken) →
          countTok (substAux cfg.ecrRepoUri.data (w.fileContent vf).data) = 0))) := by
  constructor
  · intro hk
    have hkb : (cfg.deploymentTarget != "eks") = true := by
      simp [bne_iff_ne, hk]
    simp [substituteEcrUri, hkb, PResult.pure]
  · intro he hu
    have hkb : (cfg.deploymentTarget != "eks") = false := by rw [he]; rfl
    have hub : (cfg.ecrRepoUri == "") = false := by
      cases hcb : cfg.ecrRepoUri == "" with
      | false => rfl
      | true => exact absurd (by simpa using hcb) hu
    have hdne : cfg.ecrRepoUri.data ≠ [] := by
      intro hnil
      apply hu
      have : String.mk cfg.ecrRepoUri.data = String.mk [] := by rw [hnil]
      simpa using this
    refine ⟨?_, fun hd =>
      ⟨substJS_no_dollar_eq _ hd _ _, substAux_eq_interTok _ _, interTok_splitTok_id _,
        fun hdisj => substAux_no_token cfg.ecrRepoUri.data hdne hdisj _⟩⟩
    simp [substituteEcrUri, hkb, hub]

/-- Witness for the amended C3: the Kind target leaves the file alone,
and the real EKS URI (digits, dots, dashes, slashes, lowercase) leaves
zero token occurrences after substitution. -/
theorem c3_placeholder_substitution_witness :
    kindCfg.deploymentTarget ≠ "eks" ∧
    substituteEcrUri wAllOk kindCfg "environments/dev.yaml" =
      ⟨[], Except.ok "environments/dev.yaml"⟩ ∧
    eksStagingCfg.ecrRepoUri ≠ "" ∧
    '$' ∉ eksStagingCfg.ecrRepoUri.data ∧
    (∀ c ∈ eksStagingCfg.ecrRepoUri.data, c ∉ ecrToken) ∧
    substJS eksStagingCfg.ecrRepoUri.data []
        (wAllOk.fileContent "environments/eks-staging.yaml").data =
      substAux eksStagingCfg.ecrRepoUri.data
        (wAllOk.fileContent "environments/eks-staging.yaml").data ∧
    countTok (substAux eksStagingCfg.ecrRepoUri.data
      (wAllOk.fileContent "environments/eks-staging.yaml").data) = 0 :=
  ⟨by decide,
    (c3_placeholder_substitution wAllOk kindCfg "environments/dev.yaml").1 (by decide),
    by decide, by decide, by decide,
    ((((c3_placeholder_substitution wAllOk eksStagingCfg "environments/eks-staging.yaml").2
      rfl (by decide)).2 (by decide)).1),
    ((((c3_placeholder_substitution wAllOk eksStagingCfg "environments/eks-staging.yaml").2
      rfl (by decide)).2 (by decide)).2.2.2 (by decide))⟩

/-- Counterexample to claim C3 as stated: with a supplied (nonempty)
repository URI that itself contains the token, the resolved values file
still contains a token occurrence — "zero remaining occurrences" fails
without an assumption on the URI. -/
theorem c3_counterexample :
    eksSelfTokCfg.deploymentTarget = "eks" ∧
    eksSelfTokCfg.ecrRepoUri ≠ "" ∧
    countTok (wAllOk.fileContent "environments/eks-dev.yaml").data = 1 ∧
    substituteEcrUri wAllOk eksSelfTokCfg "environments/eks-dev.yaml" =
      ⟨[Ev.write "/tmp/values-0.yaml"
          (String.mk (substJS eksSelfTokCfg.ecrRepoUri.data []
            (wAllOk.fileContent "environments/eks-dev.yaml").data))],
        Except.ok "/tmp/values-0.yaml"⟩ ∧
    countTok (substJS eksSelfTokCfg.ecrRepoUri.data []
      (wAllOk.fileContent "environments/eks-dev.yaml").data) = 1 ∧
    eksDollarAmpCfg.deploymentTarget = "eks" ∧
    eksDollarAmpCfg.ecrRepoUri ≠ "" ∧
    countTok (substJS eksDollarAmpCfg.ecrRepoUri.data []
      (wAllOk.fileContent "environments/eks-dev.yaml").data) = 1 := by
  refine ⟨rfl, by decide, by decide, rfl, ?_, rfl, by decide, ?_⟩
  · simp [substJS, expandRepl, countTok, leadsWith, ecrToken, eksSelfTokCfg, wAllOk,
      backquoteChar, singleQuoteChar]
  · simp [substJS, expandRepl, countTok, leadsWith, ecrToken, eksDollarAmpCfg, wAllOk,
      backquoteChar, singleQuoteChar]

/-- Claim C4: with `DEPLOY_ENV=staging` and `DEPLOYMENT_TARGET=kind`,
`deploy` invokes exactly `helm upgrade --install` with values file
`environments/staging.yaml`, release `sample-app` and no namespace
argument; with `DEPLOYMENT_TARGET=eks` the invocation uses namespace
`staging` and release name `sample-app-staging`. -/
theorem c4_staging_deploy_invocation :
    deploy wAllOk kindStagingCfg none =
      ⟨[Ev.exec ("helm upgrade --install sample-app oci://localhost:5001/charts/sample-app" ++
          " -f environments/staging.yaml --set image.tag=latest --wait --timeout 120s")],
        Except.ok ()⟩ ∧
    releaseName kindStagingCfg "staging" = "sample-app" ∧
    namespaceArgs kindStagingCfg "staging" = [] ∧
    deploy wAllOk eksStagingCfg none =
      ⟨[Ev.write "/tmp/values-0.yaml"
          (String.mk (substJS eksStagingCfg.ecrRepoUri.data []
            (wAllOk.fileContent (getEnvironmentFile eksStagingCfg "staging")).data)),
        Ev.exec "kubectl create namespace staging --dry-run=client -o yaml | kubectl apply -f -",
        Ev.exec ("helm upgrade --install sample-app-staging" ++
          " oci://111122223333.dkr.ecr.us-east-1.amazonaws.com/charts/sample-app" ++
          " -f /tmp/values-0.yaml --set image.tag=latest --namespace staging --wait --timeout 120s"),
        Ev.exec ("kubectl get ingress -n staging" ++
          " -o jsonpath=\x27{.items[0].status.loadBalancer.ingress[0].hostname}\x27 2>/dev/null")],
       Except.ok ()⟩ ∧
    releaseName eksStagingCfg "staging" = "sample-app-staging" ∧
    namespaceArgs eksStagingCfg "staging" = ["--namespace staging"] :=
  ⟨rfl, rfl, rfl, rfl, rfl, rfl⟩

/-- Claim C9: on the Kind target, `deploy` and `helm-test` always use the
fixed release name `sample-app` and pass no namespace argument, for every
environment name — so all environments of a `deploy-all` run target one
and the same release. -/
theorem c9_kind_single_release (cfg : Config) (hk : cfg.deploymentTarget = "kind") :
    (∀ env, releaseName cfg env = "sample-app") ∧
    (∀ env, namespaceArgs cfg env = []) ∧
    (∀ env, helmTestCmd cfg env = "helm test sample-app  --timeout 60s") ∧
    (∀ e1 e2, releaseName cfg e1 = releaseName cfg e2) ∧
    (∀ env vf, helmUpgradeCmd cfg env vf =
      String.intercalate " "
        ["helm upgrade --install sample-app",
          "oci://localhost:5001/charts/sample-app",
          "-f " ++ vf, "--set image.tag=" ++ cfg.imageTag, "--wait", "--timeout 120s"]) := by
  refine ⟨fun env => ?_, fun env => ?_, fun env => ?_, fun e1 e2 => ?_, fun env vf => ?_⟩ <;>
    simp only [releaseName, namespaceArgs, helmTestCmd, helmUpgradeCmd, CHART_REPO, hk] <;>
    rfl

/-- Witness for C9 at the default configuration. -/
theorem c9_kind_single_release_witness :
    kindCfg.deploymentTarget = "kind" ∧
    releaseName kindCfg "prod" = "sample-app" ∧
    namespaceArgs kindCfg "prod" = [] ∧
    helmTestCmd kindCfg "staging" = "helm test sample-app  --timeout 60s" ∧
    releaseName kindCfg "dev" = releaseName kindCfg "prod" :=
  ⟨rfl, (c9_kind_single_release kindCfg rfl).1 "prod",
    (c9_kind_single_release kindCfg rfl).2.1 "prod",
    (c9_kind_single_release kindCfg rfl).2.2.1 "staging",
    (c9_kind_single_release kindCfg rfl).2.2.2.1 "dev" "prod"⟩

/-- Claim C10: during an EKS deploy, a failure of the namespace-creation
step is swallowed: `deploy` still proceeds to `helm upgrade --install`
with the `--namespace` argument and succeeds, rather than aborting. -/
theorem c10_namespace_failure_swallowed (w : World) (cfg : Config) (env : Option String)
    (he : cfg.deploymentTarget = "eks") (hu : cfg.ecrRepoUri ≠ "")
    (hex : w.fileExists (getEnvironmentFile cfg (env.getD cfg.deployEnv)) = true)
    (_hns : w.execOk (nsCreateCmd (env.getD cfg.deployEnv)) = false)
    (hok : w.execOk (helmUpgradeCmd cfg (env.getD cfg.deployEnv)
      (w.tmpdir ++ "/values-" ++ toString w.now ++ ".yaml")) = true) :
    deploy w cfg env =
      ⟨[Ev.write (w.tmpdir ++ "/values-" ++ toString w.now ++ ".yaml")
          (String.mk (substJS cfg.ecrRepoUri.data []
            (w.fileContent (getEnvironmentFile cfg (env.getD cfg.deployEnv))).data)),
        Ev.exec (nsCreateCmd (env.getD cfg.deployEnv)),
        Ev.exec (helmUpgradeCmd cfg (env.getD cfg.deployEnv)
          (w.tmpdir ++ "/values-" ++ toString w.now ++ ".yaml")),
        Ev.exec (ingressCmd (env.getD cfg.deployEnv))], Except.ok ()⟩ ∧
    namespaceArgs cfg (env.getD cfg.deployEnv) =
      ["--namespace " ++ env.getD cfg.deployEnv] := by
  have hkb : (cfg.deploymentTarget != "eks") = false := by rw [he]; rfl
  have heb : (cfg.deploymentTarget == "eks") = true := by rw [he]; rfl
  have hub : (cfg.ecrRepoUri == "") = false := by
    cases hcb : cfg.ecrRepoUri == "" with
    | false => rfl
    | true => exact absurd (by simpa using hcb) hu
  constructor
  · simp only [deploy]
    rw [hex]
    simp [substituteEcrUri, hkb, hub, heb, execSwallowed, execS,
      PResult.bind, PResult.pure, hok]
  · simp only [namespaceArgs, heb, if_true]

/-- Witness for C10: the staging EKS deploy in a world where exactly the
namespace-creation command fails. -/
theorem c10_namespace_failure_swallowed_witness :
    eksStagingCfg.deploymentTarget = "eks" ∧
    wNsFail.execOk (nsCreateCmd ((none : Option String).getD eksStagingCfg.deployEnv)) = false ∧
    deploy wNsFail eksStagingCfg none =
      ⟨[Ev.write ("/tmp" ++ "/values-" ++ toString (0 : Nat) ++ ".yaml")
          (String.mk (substJS eksStagingCfg.ecrRepoUri.data []
            (wNsFail.fileContent (getEnvironmentFile eksStagingCfg "staging")).data)),
        Ev.exec (nsCreateCmd "staging"),
        Ev.exec (helmUpgradeCmd eksStagingCfg "staging"
          ("/tmp" ++ "/values-" ++ toString (0 : Nat) ++ ".yaml")),
        Ev.exec (ingressCmd "staging")], Except.ok ()⟩ := by
  refine ⟨rfl, by decide, ?_⟩
  exact (c10_namespace_failure_swallowed wNsFail eksStagingCfg none rfl (by decide) rfl
    (by decide) (by decide)).1

/-- Claim C8: when the resolved values file of the requested environment
does not exist, `deploy` fails with a configuration error naming the
missing file and the valid environments, with an empty event trace — no
external tool is invoked, so cluster and registry are untouched. -/
theorem c8_missing_values_file (w : World) (cfg : Config) (env : Option String)
    (h : w.fileExists (getEnvironmentFile cfg (env.getD cfg.deployEnv)) = false) :
    deploy w cfg env =
      ⟨[], Except.error (PErr.configError
        ("Environment values file not found: " ++
          getEnvironmentFile cfg (env.getD cfg.deployEnv) ++
          ". Valid environments: dev, staging, prod"))⟩ := by
  simp only [deploy]
  rw [h]
  rfl

/-- Witness for C8: deploying `staging` in a world with no files. -/
theorem c8_missing_values_file_witness :
    wNoFiles.fileExists (getEnvironmentFile kindCfg ((some "staging").getD kindCfg.deployEnv)) = false ∧
    deploy wNoFiles kindCfg (some "staging") =
      ⟨[], Except.error (PErr.configError
        ("Environment values file not found: environments/staging.yaml" ++
          ". Valid environments: dev, staging, prod"))⟩ :=
  ⟨rfl, c8_missing_values_file wNoFiles kindCfg (some "staging") rfl⟩

end Pipeline
